import Mathlib

/-!
Verification of the initial-state expansion, canonicalization and energy
layers of the dwave-samplers repository (greedy and tabu sampler backends),
as a shallow embedding of src/greedy/sampler.py and src/tabu/sampler.py.

Configurations are embedded as lists of integers (one value per canonical
index); coefficients and energies are embedded as rationals (exact
arithmetic standing in for the floating-point values of the source).
-/

namespace DwaveSamplers

/-! ## Vartype conversion (greedy sampler.py line 205, spec section 4.2) -/

/-- Boolean to bipolar elementwise conversion: spin equals 2 times bit minus 1
(greedy sampler.py line 205: 2 multiplied by the states array minus 1). -/
def boolToSpin (b : Int) : Int := 2 * b - 1

/-- Bipolar to Boolean elementwise conversion: bit equals (spin plus 1)
divided by 2, exact on the domain of -1 and 1. -/
def spinToBool (s : Int) : Int := (s + 1) / 2

/-! ## PRNG models

The greedy backend constructs a fresh numpy RandomState from the caller
seed (greedy sampler.py line 258) and draws bits in row-major order
(line 259).  numpy RandomState is a deterministic pure function of its
seed; we embed it as a concrete deterministic stream indexed by seed and
draw position (a linear congruential stand-in for the actual Mersenne
Twister stream: the claims depend only on the stream being a pure
function of the seed, consumed in order).

The tabu backend has no seed parameter at all: its random fill calls
random.choice on the process-global PRNG (tabu sampler.py lines 240-242).
We embed the global PRNG as a draw stream together with a cursor that
advances across calls and is never reset. -/

/-- One step of the linear congruential stand-in stream. -/
def lcgStep (s : Nat) : Nat := (s * 1664525 + 1013904223) % 4294967296

/-- Draw number k of the seeded PRNG stream, as a bit (0 or 1):
embeds np.random.RandomState(seed mod 2 to the 32).randint(2, ...). -/
def npRandBit (seed k : Nat) : Nat := (lcgStep^[k + 1] (seed % 4294967296)) % 2

/-! ## Greedy backend: initial-state generators
(greedy sampler.py lines 233-273) -/

/-- The three initial-state expansion policies
(sampler.py generator dictionaries). -/
inductive Policy
  | none
  | tile
  | random
deriving DecidableEq

/-- The block of random states drawn by the greedy random generator
(greedy sampler.py line 259): rem rows of N coordinates, 2 times a random
bit minus 1, consuming one PRNG draw per coordinate in row-major
(canonical-index) order. -/
def greedyRandomStates (seed rem N : Nat) : List (List Int) :=
  (List.range rem).map (fun r =>
    (List.range N).map (fun c => 2 * (npRandBit seed (r * N + c) : Int) - 1))

/-- SteepestDescentSolver initial-state generators
(sampler.py lines 233-267), one branch per policy. -/
def greedyGen (pol : Policy) (pool : List (List Int)) (R N seed : Nat) :
    Except String (List (List Int)) :=
  match pol with
  | Policy.none =>
      if pool.length < R then Except.error "insufficient number of initial states given"
      else Except.ok pool
  | Policy.tile =>
      if pool.length < 1 then Except.error "cannot tile an empty sample set of initial states"
      else if R ≤ pool.length then Except.ok pool
      else
        let reps := R / pool.length
        let rem := R % pool.length
        let tiled := (List.replicate reps pool).flatten
        Except.ok (tiled ++ tiled.take rem)
  | Policy.random =>
      let rem := R - pool.length
      Except.ok (pool ++ greedyRandomStates seed rem N)

/-- SteepestDescentSolver truncate filter (sampler.py lines 269-273). -/
def greedyTruncate (l : List (List Int)) (R : Nat) : List (List Int) :=
  if R < l.length then l.take R else l

/-- The full greedy initial-state expansion step
(sampler.py lines 209-212): generator followed by the truncate filter. -/
def greedyExpand (pol : Policy) (pool : List (List Int)) (R N seed : Nat) :
    Except String (List (List Int)) :=
  (greedyGen pol pool R N seed).map (fun l => greedyTruncate l R)

/-! ## Tabu backend: initial-state generators
(tabu sampler.py lines 149-205), as used by sample: the three streaming
generators composed with the pre-checks of sample (lines 155-159) and the
loop that draws exactly num_reads samples (lines 175-181). -/

/-- One entry of the cycled pool used by the tabu tile generator
(itertools.cycle, tabu sampler.py line 196). -/
def tabuCyc (pool : List (List Int)) (k : Nat) : List Int :=
  pool.getD (k % pool.length) []

/-- The block of random samples drawn by the tabu random generator from
the process-global PRNG (tabu sampler.py lines 240-242): count rows of N
coordinates, each a choice between 0 and 1, consuming one global draw per
coordinate starting at cursor pos. -/
def tabuRandomFill (stream : Nat → Nat) (pos count N : Nat) : List (List Int) :=
  (List.range count).map (fun r =>
    (List.range N).map (fun c => (stream (pos + r * N + c) % 2 : Int)))

/-- The global PRNG cursor after a tabu random fill of count rows of N
coordinates each. -/
def tabuRandomNextPos (pos count N : Nat) : Nat := pos + count * N

/-- TabuSampler initial-state expansion as composed inside sample: the
pre-checks of lines 155-159 followed by drawing num_reads samples from
the selected generator (lines 168, 175-181, 188-205).  The random policy
reads the global PRNG stream at cursor pos. -/
def tabuExpand (pol : Policy) (pool : List (List Int)) (R N : Nat)
    (stream : Nat → Nat) (pos : Nat) : Except String (List (List Int)) :=
  match pol with
  | Policy.none =>
      if pool.length < R then Except.error "insufficient initial_states given"
      else Except.ok (pool.take R)
  | Policy.tile =>
      if pool.length < 1 then Except.error "cannot tile an empty sample set"
      else Except.ok ((List.range R).map (tabuCyc pool))
  | Policy.random =>
      Except.ok ((pool ++ tabuRandomFill stream pos (R - pool.length) N).take R)

/-! ## Reordering of pool rows into canonical index order
(greedy sampler.py lines 195-199): the label-to-index maps are composed
into one column lookup colOf, sending each canonical index i to the
column of the corresponding variable inside the supplied pool rows. -/

/-- Reorder one pool row into canonical index order
(greedy sampler.py line 199, the fancy-indexing step). -/
def reorderRow (row : List Int) (colOf : Nat → Nat) (N : Nat) : List Int :=
  (List.range N).map (fun i => row.getD (colOf i) 0)

/-- Reorder every pool row into canonical index order. -/
def reorderPool (pool : List (List Int)) (colOf : Nat → Nat) (N : Nat) :
    List (List Int) :=
  pool.map (fun row => reorderRow row colOf N)

/-! ## num_reads resolution and sample-level record pipelines -/

/-- Greedy num_reads default (greedy sampler.py line 150:
len(initial_states) or 1). -/
def greedyResolveNumReads (nr : Option Nat) (P : Nat) : Nat :=
  nr.getD (if P = 0 then 1 else P)

/-- Tabu num_reads default (tabu sampler.py line 57: the keyword default
in the signature is the constant 1, independent of the pool size). -/
def tabuResolveNumReads (nr : Option Nat) : Nat := nr.getD 1

/-- Greedy sample pipeline at the record-count level
(greedy sampler.py lines 122-231): resolve num_reads, validate
positivity, expand the initial states, and invoke the search primitive
once per expanded starting configuration.  The external steepest descent
primitive is a parameter: per run it returns one final configuration and
its energy.  Note the source has no short-circuit for a problem with
zero variables. -/
def greedySampleRecords (search : List Int → List Int × ℚ) (n : Nat)
    (pool : List (List Int)) (nr : Option Nat) (pol : Policy) (seed : Nat) :
    Except String (List (List Int × ℚ)) :=
  if greedyResolveNumReads nr pool.length < 1 then
    Except.error "num_reads should be a positive integer"
  else
    (greedyExpand pol pool (greedyResolveNumReads nr pool.length) n seed).map
      (fun starts => starts.map search)

/-- Tabu sample pipeline at the starting-configuration level
(tabu sampler.py lines 120-181): the empty-problem short-circuit of lines
122-123 comes first; otherwise num_reads is resolved and validated and
the expansion produces one starting configuration per TabuSearch
invocation of the loop at lines 175-181. -/
def tabuSampleConfigs (n : Nat) (pool : List (List Int)) (nr : Option Nat)
    (pol : Policy) (stream : Nat → Nat) (pos : Nat) :
    Except String (List (List Int)) :=
  if n = 0 then Except.ok []
  else if tabuResolveNumReads nr < 1 then
    Except.error "num_reads should be a positive integer"
  else tabuExpand pol pool (tabuResolveNumReads nr) n stream pos

/-! ## Canonical index map construction
(greedy sampler.py lines 124-137 and tabu sampler.py lines 208-215).
Variable labels are embedded as the Python 3 values the samplers are
exercised with: integers and strings.  Python 3 refuses to order values
of unlike types, so label comparison can fail. -/

/-- A variable label: either a Python int or a Python str. -/
inductive PyLabel
  | pint : Int → PyLabel
  | pstr : String → PyLabel
deriving DecidableEq

/-- Python 3 less-than on labels: defined within one type, a TypeError
(embedded as Option.none) across types. -/
def pyLt (a b : PyLabel) : Option Bool :=
  match a, b with
  | PyLabel.pint x, PyLabel.pint y => some (decide (x < y))
  | PyLabel.pstr x, PyLabel.pstr y => some (decide (x < y))
  | _, _ => none

/-- Every pair of labels in the list is mutually orderable. -/
def allComparable (l : List PyLabel) : Bool :=
  l.all (fun a => l.all (fun b => (pyLt a b).isSome))

/-- The total surrogate order used to sort a list of mutually orderable
labels (on such a list it agrees with the Python order, since all labels
are of one type). -/
def pyLeT (a b : PyLabel) : Prop :=
  match a, b with
  | PyLabel.pint x, PyLabel.pint y => x ≤ y
  | PyLabel.pstr x, PyLabel.pstr y => x ≤ y
  | PyLabel.pint _, PyLabel.pstr _ => True
  | PyLabel.pstr _, PyLabel.pint _ => False

instance : DecidableRel pyLeT := fun a b => by
  unfold pyLeT
  cases a <;> cases b <;> infer_instance

/-- Python sorted on a list of labels: succeeds with the sorted list when
all labels are mutually orderable, raises a TypeError (Option.none) when
the list mixes label types (any sort of a mixed list must compare two
labels of unlike type). -/
def pySorted (l : List PyLabel) : Option (List PyLabel) :=
  if allComparable l then some (l.insertionSort pyLeT) else none

/-- The greedy canonical inverse mapping (greedy sampler.py lines
129-133): sorted labels, with the insertion order of the labels as the
fallback when sorting raises a TypeError.  Index i is mapped to entry i
of this list. -/
def greedyInverseMapping (labels : List PyLabel) : List PyLabel :=
  (pySorted labels).getD labels

/-- The greedy forward mapping: a label is sent to its position inside
the inverse mapping list (sampler.py line 134). -/
def greedyMapping (labels : List PyLabel) (l : PyLabel) : Nat :=
  (greedyInverseMapping labels).indexOf l

/-- The tabu variable order (tabu sampler.py line 211:
sorted(list(bqm.adj.keys())) with no fallback, so it fails with a
TypeError on a list mixing label types). -/
def tabuVarorder (labels : List PyLabel) : Option (List PyLabel) :=
  pySorted labels

/-! ## Tabu dense QUBO matrix (tabu sampler.py lines 208-215) -/

/-- The dimod to_numpy_matrix entry in the given variable order: linear
coefficient on the diagonal, the coefficient of the unordered pair in
the upper triangle, zero below. -/
def toNumpyMatrix (lin : Nat → ℚ) (q : Nat → Nat → ℚ) (i j : Nat) : ℚ :=
  if i = j then lin i else if i < j then q i j else 0

/-- One entry of the matrix handed to TabuSearch (tabu sampler.py lines
212-213): ud = 0.5 times the numpy matrix, entry (i,j) of ud + ud
transposed. -/
def tabuQuboEntry (lin : Nat → ℚ) (q : Nat → Nat → ℚ) (i j : Nat) : ℚ :=
  (1 / 2 : ℚ) * toNumpyMatrix lin q i j + (1 / 2 : ℚ) * toNumpyMatrix lin q j i

/-- The dense list-of-rows QUBO matrix passed to TabuSearch
(tabu sampler.py line 214, the tolist step). -/
def tabuQubo (n : Nat) (lin : Nat → ℚ) (q : Nat → Nat → ℚ) : List (List ℚ) :=
  (List.range n).map (fun i => (List.range n).map (fun j => tabuQuboEntry lin q i j))

/-! ## Energy model (tabu sampler.py lines 170-186)
A model is a list of linear terms, a list of quadratic coupler terms and
an offset; the energy of a configuration is the offset plus the sum of
each term evaluated at the configuration.  The binary view of a spin
model is the term-list form of the standard substitution
spin = 2 times bit minus 1 used by dimod. -/

/-- Linear terms, coupler terms and offset of a model. -/
structure Terms where
  lin : List (Nat × ℚ)
  quad : List (Nat × Nat × ℚ)
  offset : ℚ

/-- Energy of a configuration under a term list. -/
def tmEnergy (t : Terms) (σ : Nat → ℚ) : ℚ :=
  t.offset + (t.lin.map (fun p => p.2 * σ p.1)).sum
    + (t.quad.map (fun c => c.2.2 * σ c.1 * σ c.2.1)).sum

/-- The binary view of a spin model: substituting
spin i = 2 times bit i minus 1 into every term.  A linear spin term
(i, h) becomes the linear term (i, 2h) and offset -h; a coupler (a, b, w)
becomes the coupler (a, b, 4w), the linear terms (a, -2w) and (b, -2w)
and offset +w.  This is the term-list form of the dimod spin-to-binary
transform underlying the bqm.binary view used at tabu sampler.py
lines 152, 167, 170 and 179. -/
def toBinaryTerms (t : Terms) : Terms where
  lin := t.lin.map (fun p => (p.1, 2 * p.2))
    ++ t.quad.flatMap (fun c => [(c.1, -2 * c.2.2), (c.2.1, -2 * c.2.2)])
  quad := t.quad.map (fun c => (c.1, c.2.1, 4 * c.2.2))
  offset := t.offset - (t.lin.map (fun p => p.2)).sum + (t.quad.map (fun c => c.2.2)).sum

/-- A binary quadratic model: number of variables, vartype tag, and its
terms expressed in its native vartype. -/
structure BQM where
  numVars : Nat
  isSpin : Bool
  terms : Terms

/-- The binary view of a BQM (dimod bqm.binary): the model itself when
already binary, the transformed terms when the model is a spin model. -/
def bqmBinaryView (b : BQM) : Terms :=
  if b.isSpin then toBinaryTerms b.terms else b.terms

/-- Energy of a configuration given in the native vartype of the model. -/
def bqmEnergy (b : BQM) (σ : Nat → ℚ) : ℚ := tmEnergy b.terms σ

/-- The record list assembled by the tabu sample loop
(tabu sampler.py lines 173-186) for a nonempty problem: for each read k
the search primitive returns a binary configuration searchResult k; the
record energy is recomputed from that configuration by
bqm.binary.energy (line 179), and the response change_vartype step
(line 185) converts the configuration back to the native vartype while
keeping the energy value. -/
def tabuRecords (b : BQM) (searchResult : Nat → Nat → ℚ) (R : Nat) :
    List ((Nat → ℚ) × ℚ) :=
  (List.range R).map (fun k =>
    (if b.isSpin then (fun i => 2 * searchResult k i - 1) else searchResult k,
     tmEnergy (bqmBinaryView b) (searchResult k)))

/-- The tabu sample response (tabu sampler.py lines 120-186): the
empty-problem short-circuit of lines 122-123, then the record loop. -/
def tabuSampleResponse (b : BQM) (searchResult : Nat → Nat → ℚ) (R : Nat) :
    List ((Nat → ℚ) × ℚ) :=
  if b.numVars = 0 then [] else tabuRecords b searchResult R

/-! ## Spec-side definition for the tile refinement claim -/

/-- Modelled from the spec wording of the tile policy result: the pool
repeated the ceiling of R over P times, truncated to the first R
entries. -/
def specTile (pool : List (List Int)) (R : Nat) : List (List Int) :=
  ((List.replicate ((R + pool.length - 1) / pool.length) pool).flatten).take R

/-! ## Helper lemmas -/

lemma spinToBool_boolToSpin {x : Int} (h : x = 0 ∨ x = 1) :
    spinToBool (boolToSpin x) = x := by
  rcases h with h | h <;> subst h <;> decide

lemma boolToSpin_spinToBool {x : Int} (h : x = -1 ∨ x = 1) :
    boolToSpin (spinToBool x) = x := by
  rcases h with h | h <;> subst h <;> decide

lemma getD_map_range {α : Type} (n : Nat) (f : Nat → α) (d : α) {i : Nat}
    (hi : i < n) : ((List.range n).map f).getD i d = f i := by
  rw [List.getD_eq_getElem?_getD, List.getElem?_map, List.getElem?_range hi]
  simp

lemma tabuQubo_getD (n : Nat) (lin : Nat → ℚ) (q : Nat → Nat → ℚ)
    {i j : Nat} (hi : i < n) (hj : j < n) :
    ((tabuQubo n lin q).getD i []).getD j 0 = tabuQuboEntry lin q i j := by
  unfold tabuQubo
  rw [getD_map_range n _ _ hi, getD_map_range n _ _ hj]

lemma flatten_replicate_length (m : Nat) (pool : List (List Int)) :
    ((List.replicate m pool).flatten).length = m * pool.length := by
  simp [List.length_flatten, List.map_replicate, List.sum_replicate, smul_eq_mul]

lemma greedyRandomStates_length (seed rem N : Nat) :
    (greedyRandomStates seed rem N).length = rem := by
  simp [greedyRandomStates]

lemma greedyRandomStates_mem {seed rem N : Nat} {c : List Int}
    (h : c ∈ greedyRandomStates seed rem N) : c.length = N := by
  unfold greedyRandomStates at h
  simp only [List.mem_map, List.mem_range] at h
  obtain ⟨r, -, rfl⟩ := h
  simp

lemma greedyGen_ok_le {pol : Policy} {pool : List (List Int)} {R N seed : Nat}
    {l : List (List Int)} (h : greedyGen pol pool R N seed = Except.ok l) :
    R ≤ l.length := by
  cases pol with
  | none =>
    simp only [greedyGen] at h
    split at h
    · exact absurd h (by simp)
    · injection h with h
      subst h
      omega
  | tile =>
    simp only [greedyGen] at h
    split at h
    · exact absurd h (by simp)
    · split at h
      · injection h with h
        subst h
        omega
      · injection h with h
        subst h
        rename_i h1 h2
        have hP : 1 ≤ pool.length := by omega
        have hPR : pool.length < R := by omega
        have hreps : 1 ≤ R / pool.length := (Nat.one_le_div_iff hP).mpr (le_of_lt hPR)
        have hrem : R % pool.length < pool.length := Nat.mod_lt _ hP
        have hdm : R / pool.length * pool.length + R % pool.length = R := by
          rw [Nat.mul_comm]
          exact Nat.div_add_mod R pool.length
        have hle : pool.length ≤ R / pool.length * pool.length := by
          calc pool.length = 1 * pool.length := (Nat.one_mul _).symm
            _ ≤ R / pool.length * pool.length := Nat.mul_le_mul_right _ hreps
        rw [List.length_append, List.length_take, flatten_replicate_length]
        omega
  | random =>
    simp only [greedyGen] at h
    injection h with h
    subst h
    rw [List.length_append, greedyRandomStates_length]
    omega

lemma greedyTruncate_length {l : List (List Int)} {R : Nat} (h : R ≤ l.length) :
    (greedyTruncate l R).length = R := by
  unfold greedyTruncate
  split
  · simp [List.length_take]
    omega
  · omega

lemma greedyTruncate_mem {l : List (List Int)} {R : Nat} {c : List Int}
    (h : c ∈ greedyTruncate l R) : c ∈ l := by
  unfold greedyTruncate at h
  split at h
  · exact List.mem_of_mem_take h
  · exact h

lemma greedyGen_ok_mem {pol : Policy} {pool : List (List Int)} {R N seed : Nat}
    {l : List (List Int)} (h : greedyGen pol pool R N seed = Except.ok l) :
    ∀ c ∈ l, c ∈ pool ∨ c ∈ greedyRandomStates seed (R - pool.length) N := by
  cases pol with
  | none =>
    simp only [greedyGen] at h
    split at h
    · exact absurd h (by simp)
    · injection h with h
      subst h
      exact fun c hc => Or.inl hc
  | tile =>
    simp only [greedyGen] at h
    split at h
    · exact absurd h (by simp)
    · split at h
      · injection h with h
        subst h
        exact fun c hc => Or.inl hc
      · injection h with h
        subst h
        intro c hc
        left
        have hmem : ∀ x ∈ (List.replicate (R / pool.length) pool).flatten, x ∈ pool := by
          intro x hx
          rw [List.mem_flatten] at hx
          obtain ⟨a, ha, hxa⟩ := hx
          rw [List.mem_replicate] at ha
          rw [ha.2] at hxa
          exact hxa
        rcases List.mem_append.mp hc with hc | hc
        · exact hmem c hc
        · exact hmem c (List.mem_of_mem_take hc)
  | random =>
    simp only [greedyGen] at h
    injection h with h
    subst h
    intro c hc
    exact List.mem_append.mp hc

lemma greedyExpand_length {pol : Policy} {pool : List (List Int)} {R N seed : Nat}
    {out : List (List Int)} (h : greedyExpand pol pool R N seed = Except.ok out) :
    out.length = R := by
  unfold greedyExpand at h
  cases hg : greedyGen pol pool R N seed with
  | error e => rw [hg] at h; exact absurd h (by simp [Except.map])
  | ok l =>
    rw [hg] at h
    simp only [Except.map, Except.ok.injEq] at h
    subst h
    exact greedyTruncate_length (greedyGen_ok_le hg)

lemma greedyExpand_mem {pol : Policy} {pool : List (List Int)} {R N seed : Nat}
    {out : List (List Int)} (h : greedyExpand pol pool R N seed = Except.ok out) :
    ∀ c ∈ out, c ∈ pool ∨ c ∈ greedyRandomStates seed (R - pool.length) N := by
  unfold greedyExpand at h
  cases hg : greedyGen pol pool R N seed with
  | error e => rw [hg] at h; exact absurd h (by simp [Except.map])
  | ok l =>
    rw [hg] at h
    simp only [Except.map, Except.ok.injEq] at h
    subst h
    exact fun c hc => greedyGen_ok_mem hg c (greedyTruncate_mem hc)

lemma tabuRandomFill_mem {stream : Nat → Nat} {pos count N : Nat} {c : List Int}
    (h : c ∈ tabuRandomFill stream pos count N) : c.length = N := by
  unfold tabuRandomFill at h
  simp only [List.mem_map, List.mem_range] at h
  obtain ⟨r, -, rfl⟩ := h
  simp

lemma tabuExpand_length {pol : Policy} {pool : List (List Int)} {R N : Nat}
    {stream : Nat → Nat} {pos : Nat} {out : List (List Int)}
    (h : tabuExpand pol pool R N stream pos = Except.ok out) : out.length = R := by
  cases pol with
  | none =>
    simp only [tabuExpand] at h
    split at h
    · exact absurd h (by simp)
    · injection h with h
      subst h
      rw [List.length_take]
      omega
  | tile =>
    simp only [tabuExpand] at h
    split at h
    · exact absurd h (by simp)
    · injection h with h
      subst h
      simp
  | random =>
    simp only [tabuExpand] at h
    injection h with h
    subst h
    rw [List.length_take, List.length_append]
    unfold tabuRandomFill
    rw [List.length_map, List.length_range]
    omega

lemma tabuExpand_mem {pol : Policy} {pool : List (List Int)} {R N : Nat}
    {stream : Nat → Nat} {pos : Nat} {out : List (List Int)}
    (h : tabuExpand pol pool R N stream pos = Except.ok out) :
    ∀ c ∈ out, c ∈ pool ∨ c ∈ tabuRandomFill stream pos (R - pool.length) N := by
  cases pol with
  | none =>
    simp only [tabuExpand] at h
    split at h
    · exact absurd h (by simp)
    · injection h with h
      subst h
      exact fun c hc => Or.inl (List.mem_of_mem_take hc)
  | tile =>
    simp only [tabuExpand] at h
    split at h
    · exact absurd h (by simp)
    · injection h with h
      subst h
      intro c hc
      left
      simp only [List.mem_map, List.mem_range] at hc
      obtain ⟨k, -, rfl⟩ := hc
      unfold tabuCyc
      have hk : k % pool.length < pool.length := Nat.mod_lt _ (by omega)
      rw [List.getD_eq_getElem _ _ hk]
      exact List.getElem_mem hk
  | random =>
    simp only [tabuExpand] at h
    injection h with h
    subst h
    exact fun c hc => List.mem_append.mp (List.mem_of_mem_take hc)

/-! ## C7: vartype conversions are mutual inverses -/

/-- C7: for every configuration over the Boolean domain, converting
elementwise to bipolar by boolToSpin and back by spinToBool reproduces
the configuration exactly, and symmetrically for every configuration
over the bipolar domain; the two elementwise conversions are mutual
inverses in exact integer arithmetic. -/
theorem spec_c7_vartype_roundtrip (xs : List Int) :
    ((∀ x ∈ xs, x = 0 ∨ x = 1) → (xs.map boolToSpin).map spinToBool = xs) ∧
    ((∀ x ∈ xs, x = -1 ∨ x = 1) → (xs.map spinToBool).map boolToSpin = xs) := by
  constructor
  · intro h
    rw [List.map_map]
    have : ∀ x ∈ xs, (spinToBool ∘ boolToSpin) x = id x :=
      fun x hx => spinToBool_boolToSpin (h x hx)
    rw [List.map_congr_left this, List.map_id]
  · intro h
    rw [List.map_map]
    have : ∀ x ∈ xs, (boolToSpin ∘ spinToBool) x = id x :=
      fun x hx => boolToSpin_spinToBool (h x hx)
    rw [List.map_congr_left this, List.map_id]

/-- Witness for C7 at a concrete configuration. -/
theorem spec_c7_vartype_roundtrip_witness :
    (([0, 1, 1] : List Int).map boolToSpin).map spinToBool = [0, 1, 1] ∧
    (([-1, 1, -1] : List Int).map spinToBool).map boolToSpin = [-1, 1, -1] :=
  ⟨(spec_c7_vartype_roundtrip [0, 1, 1]).1 (by decide),
   (spec_c7_vartype_roundtrip [-1, 1, -1]).2 (by decide)⟩

/-! ## C1: the expansion step yields exactly R canonically ordered rows -/

/-- C1: for every problem with N variables, every candidate pool, every
positive target R and every policy that does not fail, the initial-state
expansion step produces exactly R starting configurations, each a
length-N array in canonical index order: on the greedy backend the
expansion of the canonically reordered pool, on the tabu backend the
expansion of the canonical pool; and the reordering step applies the
label-to-index column map consistently to every pool row, placing at
canonical index i the row value of the variable with canonical index i. -/
theorem spec_c1_expansion_shape (pool tpool : List (List Int)) (R N seed : Nat)
    (colOf : Nat → Nat) (stream : Nat → Nat) (pos : Nat) (hR : 0 < R)
    (htp : ∀ c ∈ tpool, c.length = N) :
    (∀ pol out, greedyExpand pol (reorderPool pool colOf N) R N seed = Except.ok out →
        out.length = R ∧ ∀ c ∈ out, c.length = N) ∧
    (∀ pol out, tabuExpand pol tpool R N stream pos = Except.ok out →
        out.length = R ∧ ∀ c ∈ out, c.length = N) ∧
    (∀ row ∈ pool, (reorderRow row colOf N).length = N ∧
        ∀ i, i < N → (reorderRow row colOf N).getD i 0 = row.getD (colOf i) 0) := by
  refine ⟨fun pol out h => ⟨greedyExpand_length h, fun c hc => ?_⟩,
    fun pol out h => ⟨tabuExpand_length h, fun c hc => ?_⟩,
    fun row _ => ⟨by simp [reorderRow], fun i hi => getD_map_range N _ _ hi⟩⟩
  · rcases greedyExpand_mem h c hc with hm | hm
    · unfold reorderPool at hm
      simp only [List.mem_map] at hm
      obtain ⟨r, -, rfl⟩ := hm
      simp [reorderRow]
    · exact greedyRandomStates_mem hm
  · rcases tabuExpand_mem h c hc with hm | hm
    · exact htp c hm
    · exact tabuRandomFill_mem hm

/-- Witness for C1 at a concrete pool, using the none policy on both
backends. -/
theorem spec_c1_expansion_shape_witness :
    ([[(5 : Int)]] : List (List Int)).length = 1 ∧
    ([[(7 : Int)]] : List (List Int)).length = 1 := by
  have h := spec_c1_expansion_shape [[5]] [[7]] 1 1 0 (fun i => i) (fun k => k) 0
    (by decide) (by decide)
  exact ⟨(h.1 Policy.none [[5]] (by rfl)).1, (h.2.1 Policy.none [[7]] (by rfl)).1⟩

/-! ## C3: the none policy -/

/-- C3: for the none policy with pool size P and positive target R, both
backends fail with an insufficient-initial-states condition when P is
less than R, before any search invocation; and when P is at least R both
backends use the first R pool entries unchanged and in pool order. -/
theorem spec_c3_none_policy (pool : List (List Int)) (R N seed : Nat)
    (stream : Nat → Nat) (pos : Nat) (hR : 0 < R) :
    (pool.length < R →
        greedyExpand Policy.none pool R N seed =
          Except.error "insufficient number of initial states given" ∧
        tabuExpand Policy.none pool R N stream pos =
          Except.error "insufficient initial_states given") ∧
    (R ≤ pool.length →
        greedyExpand Policy.none pool R N seed = Except.ok (pool.take R) ∧
        tabuExpand Policy.none pool R N stream pos = Except.ok (pool.take R)) := by
  constructor
  · intro hlt
    constructor
    · simp only [greedyExpand, greedyGen, if_pos hlt]
      rfl
    · simp only [tabuExpand, if_pos hlt]
  · intro hle
    constructor
    · simp only [greedyExpand, greedyGen, if_neg (Nat.not_lt.mpr hle), Except.map]
      unfold greedyTruncate
      split
      · rfl
      · rw [List.take_of_length_le (by omega)]
    · simp only [tabuExpand, if_neg (Nat.not_lt.mpr hle)]

/-- Witness for C3: a success at sufficient pool size and a failure at
insufficient pool size. -/
theorem spec_c3_none_policy_witness :
    greedyExpand Policy.none [[1], [2]] 1 1 0 = Except.ok [[1]] ∧
    tabuExpand Policy.none [[1], [2]] 3 1 (fun k => k) 0 =
      Except.error "insufficient initial_states given" := by
  have h1 := (spec_c3_none_policy [[1], [2]] 1 1 0 (fun k => k) 0 (by decide)).2
    (by decide)
  have h2 := (spec_c3_none_policy [[1], [2]] 3 1 0 (fun k => k) 0 (by decide)).1
    (by decide)
  exact ⟨by simpa using h1.1, h2.2⟩

/-! ## C2: the tile policy equals repeat-and-truncate -/

lemma getD_append_left {α : Type} {l₁ l₂ : List α} {k : Nat} {d : α}
    (h : k < l₁.length) : (l₁ ++ l₂).getD k d = l₁.getD k d := by
  rw [List.getD_eq_getElem?_getD, List.getD_eq_getElem?_getD, List.getElem?_append,
    if_pos h]

lemma getD_append_right {α : Type} {l₁ l₂ : List α} {k : Nat} {d : α}
    (h : l₁.length ≤ k) : (l₁ ++ l₂).getD k d = l₂.getD (k - l₁.length) d := by
  rw [List.getD_eq_getElem?_getD, List.getD_eq_getElem?_getD, List.getElem?_append,
    if_neg (Nat.not_lt.mpr h)]

lemma getD_take {α : Type} {l : List α} {n k : Nat} {d : α} (h : k < n) :
    (l.take n).getD k d = l.getD k d := by
  rw [List.getD_eq_getElem?_getD, List.getD_eq_getElem?_getD, List.getElem?_take,
    if_pos h]

lemma flatten_replicate_getD {pool : List (List Int)} (hP : 0 < pool.length) :
    ∀ (m k : Nat), k < m * pool.length →
      ((List.replicate m pool).flatten).getD k [] = pool.getD (k % pool.length) [] := by
  intro m
  induction m with
  | zero => intro k hk; omega
  | succ m ih =>
    intro k hk
    rw [List.replicate_succ, List.flatten_cons]
    by_cases hkP : k < pool.length
    · rw [getD_append_left hkP, Nat.mod_eq_of_lt hkP]
    · push_neg at hkP
      have hsm : (m + 1) * pool.length = m * pool.length + pool.length :=
        Nat.succ_mul m pool.length
      rw [getD_append_right hkP, ih (k - pool.length) (by omega),
        Nat.mod_eq_sub_mod hkP]

lemma greedyTruncate_getD {l : List (List Int)} {R k : Nat} (h : k < R) :
    (greedyTruncate l R).getD k [] = l.getD k [] := by
  unfold greedyTruncate
  split
  · exact getD_take h
  · rfl

lemma ceil_mul_ge {R P : Nat} (hP : 0 < P) : R ≤ (R + P - 1) / P * P := by
  by_contra hc
  push_neg at hc
  have h1 : ((R + P - 1) / P + 1) * P ≤ R + P - 1 := by
    have e : ((R + P - 1) / P + 1) * P = (R + P - 1) / P * P + P := by ring
    omega
  have h2 := (Nat.le_div_iff_mul_le hP).mpr h1
  omega

lemma specTile_eq_rangeMap {pool : List (List Int)} {R : Nat}
    (hP : 0 < pool.length) :
    specTile pool R = (List.range R).map (tabuCyc pool) := by
  have hm : R ≤ (R + pool.length - 1) / pool.length * pool.length := ceil_mul_ge hP
  have hlen : (specTile pool R).length = R := by
    unfold specTile
    rw [List.length_take, flatten_replicate_length]
    omega
  apply List.ext_getElem
  · rw [hlen]; simp
  · intro i h1 h2
    rw [← List.getD_eq_getElem (specTile pool R) [] h1,
      ← List.getD_eq_getElem _ [] h2]
    have hiR : i < R := by rwa [hlen] at h1
    rw [getD_map_range R _ _ hiR]
    unfold specTile tabuCyc
    rw [getD_take hiR, flatten_replicate_getD hP _ i (by omega)]

lemma tiledAppend_length {pool : List (List Int)} {R : Nat}
    (hP : 0 < pool.length) (hRP : pool.length < R) :
    (((List.replicate (R / pool.length) pool).flatten) ++
      ((List.replicate (R / pool.length) pool).flatten).take (R % pool.length)).length
      = R := by
  have hreps : 1 ≤ R / pool.length := (Nat.one_le_div_iff hP).mpr (le_of_lt hRP)
  have hdm : R / pool.length * pool.length + R % pool.length = R := by
    rw [Nat.mul_comm]; exact Nat.div_add_mod R pool.length
  have hPle : pool.length ≤ R / pool.length * pool.length := by
    calc pool.length = 1 * pool.length := (Nat.one_mul _).symm
      _ ≤ R / pool.length * pool.length := Nat.mul_le_mul_right _ hreps
  have hrem : R % pool.length < pool.length := Nat.mod_lt _ hP
  rw [List.length_append, List.length_take, flatten_replicate_length]
  omega

lemma tiledAppend_getD {pool : List (List Int)} {R i : Nat}
    (hP : 0 < pool.length) (hRP : pool.length < R) (hi : i < R) :
    (((List.replicate (R / pool.length) pool).flatten) ++
      ((List.replicate (R / pool.length) pool).flatten).take (R % pool.length)).getD i []
      = pool.getD (i % pool.length) [] := by
  have hreps : 1 ≤ R / pool.length := (Nat.one_le_div_iff hP).mpr (le_of_lt hRP)
  have hdm : R / pool.length * pool.length + R % pool.length = R := by
    rw [Nat.mul_comm]; exact Nat.div_add_mod R pool.length
  have hPle : pool.length ≤ R / pool.length * pool.length := by
    calc pool.length = 1 * pool.length := (Nat.one_mul _).symm
      _ ≤ R / pool.length * pool.length := Nat.mul_le_mul_right _ hreps
  have hrem : R % pool.length < pool.length := Nat.mod_lt _ hP
  have htlen := flatten_replicate_length (R / pool.length) pool
  by_cases hit : i < ((List.replicate (R / pool.length) pool).flatten).length
  · rw [getD_append_left hit, flatten_replicate_getD hP _ i (by omega)]
  · push_neg at hit
    have hit2 : R / pool.length * pool.length ≤ i := by rwa [htlen] at hit
    rw [getD_append_right hit, htlen]
    have hj : i - R / pool.length * pool.length < R % pool.length := by omega
    have hjP : i - R / pool.length * pool.length < pool.length := by omega
    rw [getD_take hj, flatten_replicate_getD hP _ _ (by omega),
      Nat.mod_eq_of_lt hjP]
    have h5 : i = (i - R / pool.length * pool.length) +
        R / pool.length * pool.length := by omega
    conv_rhs => rw [h5, Nat.add_mul_mod_self_right, Nat.mod_eq_of_lt hjP]

lemma greedyTile_ok {pool : List (List Int)} {R N seed : Nat}
    (hP : 0 < pool.length) :
    greedyExpand Policy.tile pool R N seed =
      Except.ok ((List.range R).map (tabuCyc pool)) := by
  simp only [greedyExpand, greedyGen, if_neg (by omega : ¬pool.length < 1)]
  by_cases hRP : R ≤ pool.length
  · rw [if_pos hRP]
    simp only [Except.map, Except.ok.injEq]
    apply List.ext_getElem
    · rw [greedyTruncate_length hRP]; simp
    · intro i h1 h2
      rw [← List.getD_eq_getElem _ [] h1, ← List.getD_eq_getElem _ [] h2]
      have hiR : i < R := by rwa [greedyTruncate_length hRP] at h1
      rw [greedyTruncate_getD hiR, getD_map_range R _ _ hiR]
      unfold tabuCyc
      rw [Nat.mod_eq_of_lt (by omega)]
  · rw [if_neg hRP]
    simp only [Except.map, Except.ok.injEq]
    push_neg at hRP
    have hTlen := tiledAppend_length hP hRP
    have hTtr : greedyTruncate
        (((List.replicate (R / pool.length) pool).flatten) ++
          ((List.replicate (R / pool.length) pool).flatten).take (R % pool.length)) R =
        ((List.replicate (R / pool.length) pool).flatten) ++
          ((List.replicate (R / pool.length) pool).flatten).take (R % pool.length) := by
      unfold greedyTruncate
      rw [if_neg (by omega)]
    rw [hTtr]
    apply List.ext_getElem
    · rw [hTlen]; simp
    · intro i h1 h2
      rw [← List.getD_eq_getElem _ [] h1, ← List.getD_eq_getElem _ [] h2]
      have hiR : i < R := by rwa [hTlen] at h1
      rw [getD_map_range R _ _ hiR, tiledAppend_getD hP hRP hiR]
      rfl

/-- C2: for the tile policy with a nonempty pool of size P and positive
target R, both backends produce the pool repeated the ceiling of R over P
times and truncated to exactly the first R entries, preserving pool
order; with an empty pool the tile policy fails with an empty-pool
condition before any search run. -/
theorem spec_c2_tile_refinement (pool : List (List Int)) (R N seed : Nat)
    (stream : Nat → Nat) (pos : Nat) (hR : 0 < R) :
    (0 < pool.length →
        greedyExpand Policy.tile pool R N seed = Except.ok (specTile pool R) ∧
        tabuExpand Policy.tile pool R N stream pos = Except.ok (specTile pool R)) ∧
    (pool.length = 0 →
        greedyExpand Policy.tile pool R N seed =
          Except.error "cannot tile an empty sample set of initial states" ∧
        tabuExpand Policy.tile pool R N stream pos =
          Except.error "cannot tile an empty sample set") := by
  constructor
  · intro hP
    rw [specTile_eq_rangeMap hP]
    refine ⟨greedyTile_ok hP, ?_⟩
    simp only [tabuExpand, if_neg (by omega : ¬pool.length < 1)]
  · intro hP0
    constructor
    · simp only [greedyExpand, greedyGen, if_pos (by omega : pool.length < 1)]
      rfl
    · simp only [tabuExpand, if_pos (by omega : pool.length < 1)]

/-- Witness for C2: a concrete tiling with wrap-around and a concrete
empty-pool failure. -/
theorem spec_c2_tile_refinement_witness :
    greedyExpand Policy.tile [[1], [2]] 3 1 0 = Except.ok (specTile [[1], [2]] 3) ∧
    tabuExpand Policy.tile [] 3 1 (fun k => k) 0 =
      Except.error "cannot tile an empty sample set" := by
  have h1 := (spec_c2_tile_refinement [[1], [2]] 3 1 0 (fun k => k) 0 (by decide)).1
    (by decide)
  have h2 := (spec_c2_tile_refinement [] 3 1 0 (fun k => k) 0 (by decide)).2
    (by decide)
  exact ⟨h1.1, h2.2⟩

/-! ## C4: random-policy determinism (corrected) -/

/-- C4 counterexample: the tabu backend exposes no seed; its random fill
draws from the process-global PRNG whose cursor advances across calls.
Two successive random expansions with identical pool, target and
variable count therefore differ on a concrete global draw stream. -/
theorem spec_c4_tabu_not_seeded_cex :
    tabuExpand Policy.random [] 1 1 (fun k => k) 0 ≠
      tabuExpand Policy.random [] 1 1 (fun k => k) (tabuRandomNextPos 0 1 1) := by
  intro h
  have h1 : tabuExpand Policy.random [] 1 1 (fun k => k) 0 =
      Except.ok [[(0 : Int)]] := rfl
  have h2 : tabuExpand Policy.random [] 1 1 (fun k => k) (tabuRandomNextPos 0 1 1) =
      Except.ok [[(1 : Int)]] := rfl
  rw [h1, h2] at h
  injection h with h
  exact absurd h (by decide)

/-- C4 amended: on the greedy backend the random expansion is a pure
function of the seed, the target and the variable count, so two runs
with the same seed agree bit for bit, and with an empty pool all R
configurations come from the seeded PRNG, one configuration at a time,
consuming one draw per canonical coordinate; the tabu backend has no
seed parameter, and its random expansion agrees across two runs only
when the global PRNG cursor is the same, which successive calls do not
preserve. -/
theorem spec_c4_random_determinism_amended (R N seed seed2 : Nat)
    (pool : List (List Int)) (stream : Nat → Nat) (pos pos2 : Nat)
    (hR : 0 < R) (hseed : seed = seed2) (hpos : pos = pos2) :
    greedyExpand Policy.random [] R N seed = Except.ok (greedyRandomStates seed R N) ∧
    greedyExpand Policy.random pool R N seed = greedyExpand Policy.random pool R N seed2 ∧
    tabuExpand Policy.random pool R N stream pos =
      tabuExpand Policy.random pool R N stream pos2 := by
  subst hseed
  subst hpos
  refine ⟨?_, rfl, rfl⟩
  simp only [greedyExpand, greedyGen, List.length_nil, Nat.sub_zero, List.nil_append,
    Except.map, Except.ok.injEq]
  unfold greedyTruncate
  rw [if_neg (by rw [greedyRandomStates_length]; exact lt_irrefl R)]

/-- Witness for the amended C4 at concrete inputs. -/
theorem spec_c4_random_determinism_amended_witness :
    greedyExpand Policy.random [] 2 1 7 = Except.ok (greedyRandomStates 7 2 1) ∧
    greedyExpand Policy.random [[1]] 2 1 7 = greedyExpand Policy.random [[1]] 2 1 7 ∧
    tabuExpand Policy.random [[1]] 2 1 (fun k => k) 3 =
      tabuExpand Policy.random [[1]] 2 1 (fun k => k) 3 := by
  exact spec_c4_random_determinism_amended 2 1 7 7 [[1]] (fun k => k) 3 3
    (by decide) rfl rfl

/-! ## C5: behaviour on a problem with zero variables (corrected) -/

/-- C5 counterexample: on the greedy backend a zero-variable problem with
num_reads 2 still reaches the search primitive: the pipeline produces a
response of 2 records (one per search invocation), not an empty
response. -/
theorem spec_c5_greedy_no_shortcircuit_cex :
    (greedySampleRecords (fun s => (s, (0 : ℚ))) 0 [] (some 2) Policy.random 0).map
        List.length = Except.ok 2 ∧ (2 : Nat) ≠ 0 := by
  constructor
  · rfl
  · decide

/-- C5 amended: on a problem with zero variables the tabu backend
short-circuits to an empty response without invoking the search
primitive; the greedy backend has no such short-circuit: for every
search primitive and successful expansion it invokes the search once per
resolved read and returns that many records, at least one. -/
theorem spec_c5_empty_problem_amended (b : BQM) (sr : Nat → Nat → ℚ) (R : Nat)
    (search : List Int → List Int × ℚ) (pool : List (List Int)) (nr : Option Nat)
    (pol : Policy) (seed : Nat) (hb : b.numVars = 0) :
    tabuSampleResponse b sr R = [] ∧
    (∀ recs, greedySampleRecords search 0 pool nr pol seed = Except.ok recs →
        recs.length = greedyResolveNumReads nr pool.length ∧ 0 < recs.length) := by
  constructor
  · simp [tabuSampleResponse, hb]
  · intro recs h
    unfold greedySampleRecords at h
    split at h
    · exact absurd h (by simp)
    · rename_i hR1
      cases hg : greedyExpand pol pool (greedyResolveNumReads nr pool.length) 0 seed with
      | error e => rw [hg] at h; exact absurd h (by simp [Except.map])
      | ok starts =>
        rw [hg] at h
        simp only [Except.map, Except.ok.injEq] at h
        subst h
        rw [List.length_map, greedyExpand_length hg]
        omega

/-- Witness for the amended C5 at concrete inputs. -/
theorem spec_c5_empty_problem_amended_witness :
    tabuSampleResponse ⟨0, false, ⟨[], [], 0⟩⟩ (fun _ _ => 0) 3 = [] ∧
    ([([], (0 : ℚ)), ([], 0)] : List (List Int × ℚ)).length =
      greedyResolveNumReads (some 2) ([] : List (List Int)).length ∧
    0 < ([([], (0 : ℚ)), ([], 0)] : List (List Int × ℚ)).length := by
  have h := spec_c5_empty_problem_amended ⟨0, false, ⟨[], [], 0⟩⟩ (fun _ _ => 0) 3
    (fun s => (s, (0 : ℚ))) [] (some 2) Policy.random 0 rfl
  exact ⟨h.1, h.2 [([], 0), ([], 0)] (by rfl)⟩

/-! ## C6: the num_reads default (corrected) -/

/-- C6 counterexample: with two initial states and num_reads not
supplied, the tabu backend performs one run, not max(2, 1) = 2 runs. -/
theorem spec_c6_tabu_default_reads_cex :
    tabuSampleConfigs 1 [[0], [1]] Option.none Policy.none (fun k => k) 0 =
      Except.ok [[0]] ∧
    tabuResolveNumReads Option.none ≠ max ([[0], [1]] : List (List Int)).length 1 := by
  constructor
  · rfl
  · decide

/-- C6 amended: when num_reads is not supplied the greedy backend
resolves it to max(pool size, 1) and returns that many records; the tabu
backend resolves it to the constant 1 regardless of the pool size, and
its response then holds exactly one record. -/
theorem spec_c6_num_reads_default_amended (P n : Nat)
    (search : List Int → List Int × ℚ) (pool tpool : List (List Int))
    (pol tpol : Policy) (seed : Nat) (stream : Nat → Nat) (pos : Nat) :
    greedyResolveNumReads Option.none P = max P 1 ∧
    tabuResolveNumReads Option.none = 1 ∧
    (∀ recs, greedySampleRecords search n pool Option.none pol seed = Except.ok recs →
        recs.length = max pool.length 1) ∧
    (∀ cfgs, 0 < n →
        tabuSampleConfigs n tpool Option.none tpol stream pos = Except.ok cfgs →
        cfgs.length = 1) := by
  refine ⟨?_, rfl, fun recs h => ?_, fun cfgs hn h => ?_⟩
  · unfold greedyResolveNumReads
    rcases Nat.eq_zero_or_pos P with h | h
    · simp [h]
    · rw [Option.getD_none, if_neg (by omega), Nat.max_eq_left (by omega)]
  · unfold greedySampleRecords at h
    split at h
    · exact absurd h (by simp)
    · cases hg : greedyExpand pol pool (greedyResolveNumReads Option.none pool.length)
          n seed with
      | error e => rw [hg] at h; exact absurd h (by simp [Except.map])
      | ok starts =>
        rw [hg] at h
        simp only [Except.map, Except.ok.injEq] at h
        subst h
        rw [List.length_map, greedyExpand_length hg]
        unfold greedyResolveNumReads
        rcases Nat.eq_zero_or_pos pool.length with h | h
        · simp [h]
        · rw [Option.getD_none, if_neg (by omega), Nat.max_eq_left (by omega)]
  · unfold tabuSampleConfigs at h
    rw [if_neg (by omega)] at h
    split at h
    · exact absurd h (by simp)
    · exact tabuExpand_length h

/-- Witness for the amended C6 at concrete inputs. -/
theorem spec_c6_num_reads_default_amended_witness :
    greedyResolveNumReads Option.none 2 = max 2 1 ∧
    tabuResolveNumReads Option.none = 1 ∧
    ([([(5 : Int)], (0 : ℚ))] : List (List Int × ℚ)).length =
      max ([[(5 : Int)]] : List (List Int)).length 1 ∧
    ([[(7 : Int)]] : List (List Int)).length = 1 := by
  have h := spec_c6_num_reads_default_amended 2 1 (fun s => (s, (0 : ℚ)))
    [[5]] [[7]] Policy.none Policy.none 0 (fun k => k) 0
  exact ⟨h.1, h.2.1, h.2.2.1 [([5], 0)] (by rfl),
    h.2.2.2 [[7]] (by decide) (by rfl)⟩

/-! ## C9: the tabu dense matrix symmetrization -/

/-- C9: the dense matrix handed to TabuSearch is
M = 0.5 U + transpose of 0.5 U where U is the coefficient matrix in the
sorted-adjacency variable order; M is symmetric, and for distinct indices
the sum of the two mirror entries equals the quadratic coefficient of the
unordered pair. -/
theorem spec_c9_tabu_matrix_symmetrization (n : Nat) (lin : Nat → ℚ)
    (q : Nat → Nat → ℚ) (i j : Nat) (hi : i < n) (hj : j < n) :
    ((tabuQubo n lin q).getD i []).getD j 0 = ((tabuQubo n lin q).getD j []).getD i 0 ∧
    (i ≠ j →
      ((tabuQubo n lin q).getD i []).getD j 0 + ((tabuQubo n lin q).getD j []).getD i 0 =
        q (min i j) (max i j)) := by
  rw [tabuQubo_getD n lin q hi hj, tabuQubo_getD n lin q hj hi]
  constructor
  · unfold tabuQuboEntry
    ring
  · intro hne
    rcases lt_trichotomy i j with h | h | h
    · unfold tabuQuboEntry toNumpyMatrix
      rw [if_neg hne, if_pos h, if_neg (Ne.symm hne), if_neg (Nat.not_lt.mpr h.le),
        min_eq_left h.le, max_eq_right h.le]
      ring
    · exact absurd h hne
    · unfold tabuQuboEntry toNumpyMatrix
      rw [if_neg hne, if_neg (Nat.not_lt.mpr h.le), if_neg (Ne.symm hne), if_pos h,
        min_eq_right h.le, max_eq_left h.le]
      ring

/-- Witness for C9 at a concrete matrix. -/
theorem spec_c9_tabu_matrix_symmetrization_witness :
    ((tabuQubo 2 (fun _ => 0) (fun _ _ => 3)).getD 0 []).getD 1 0 =
      ((tabuQubo 2 (fun _ => 0) (fun _ _ => 3)).getD 1 []).getD 0 0 ∧
    ((tabuQubo 2 (fun _ => 0) (fun _ _ => 3)).getD 0 []).getD 1 0 +
      ((tabuQubo 2 (fun _ => 0) (fun _ _ => 3)).getD 1 []).getD 0 0 = 3 := by
  have h := spec_c9_tabu_matrix_symmetrization 2 (fun _ => 0) (fun _ _ => 3) 0 1
    (by decide) (by decide)
  exact ⟨h.1, by simpa using h.2 (by decide)⟩

/-! ## C8: canonical index map construction (corrected) -/

/-- C8 counterexample: on a problem whose labels mix an int and a str,
the tabu variable ordering (bare sorted, tabu sampler.py line 211) fails
with a TypeError, while the greedy construction falls back to insertion
order and succeeds. -/
theorem spec_c8_tabu_sorted_fails_cex :
    tabuVarorder [PyLabel.pint 0, PyLabel.pstr "a"] = none ∧
    greedyInverseMapping [PyLabel.pint 0, PyLabel.pstr "a"] =
      [PyLabel.pint 0, PyLabel.pstr "a"] := by
  exact ⟨rfl, rfl⟩

/-- C8 amended: the greedy canonical index map construction is total on
every label list, with insertion order as the fallback when labels are
not mutually orderable: the canonical order is always a permutation of
the labels, and for duplicate-free labels the forward map and the
inverse map compose to the identity in both directions, so the map and
its inverse are applied consistently.  The tabu backend instead fails
with a TypeError on unorderable labels. -/
theorem spec_c8_canonicalization_amended (labels : List PyLabel) :
    (greedyInverseMapping labels).Perm labels ∧
    (labels.Nodup →
      (∀ l ∈ labels,
        (greedyInverseMapping labels).getD (greedyMapping labels l) (PyLabel.pint 0)
          = l) ∧
      (∀ i, i < labels.length →
        greedyMapping labels ((greedyInverseMapping labels).getD i (PyLabel.pint 0))
          = i)) := by
  have hperm : (greedyInverseMapping labels).Perm labels := by
    unfold greedyInverseMapping pySorted
    split
    · simp only [Option.getD_some]
      exact List.perm_insertionSort pyLeT labels
    · simp only [Option.getD_none]
      exact List.Perm.refl labels
  refine ⟨hperm, fun hnd => ⟨?_, ?_⟩⟩
  · intro l hl
    have hm : l ∈ greedyInverseMapping labels := hperm.mem_iff.mpr hl
    have hlt : List.indexOf l (greedyInverseMapping labels) <
        (greedyInverseMapping labels).length := List.indexOf_lt_length.mpr hm
    unfold greedyMapping
    rw [List.getD_eq_getElem _ _ hlt]
    exact List.getElem_indexOf hlt
  · intro i hi
    have hnd2 : (greedyInverseMapping labels).Nodup := hperm.nodup_iff.mpr hnd
    have hi2 : i < (greedyInverseMapping labels).length := by
      rw [hperm.length_eq]; exact hi
    unfold greedyMapping
    rw [List.getD_eq_getElem _ _ hi2]
    exact List.indexOf_getElem hnd2 i hi2

/-- Witness for the amended C8 at a concrete unsorted label list. -/
theorem spec_c8_canonicalization_amended_witness :
    (greedyInverseMapping [PyLabel.pint 3, PyLabel.pint 1]).Perm
      [PyLabel.pint 3, PyLabel.pint 1] ∧
    (greedyInverseMapping [PyLabel.pint 3, PyLabel.pint 1]).getD
      (greedyMapping [PyLabel.pint 3, PyLabel.pint 1] (PyLabel.pint 3))
      (PyLabel.pint 0) = PyLabel.pint 3 := by
  have h := spec_c8_canonicalization_amended [PyLabel.pint 3, PyLabel.pint 1]
  exact ⟨h.1, (h.2 (by decide)).1 (PyLabel.pint 3) (by decide)⟩

/-! ## C10: tabu response energy consistency -/

lemma linRound (x : Nat → ℚ) : ∀ L : List (Nat × ℚ),
    ((L.map (fun p => (p.1, 2 * p.2))).map (fun p => p.2 * x p.1)).sum
      = (L.map (fun p => p.2 * (2 * x p.1 - 1))).sum + (L.map (fun p => p.2)).sum
  | [] => by simp
  | p :: L => by
    simp only [List.map_cons, List.sum_cons]
    linear_combination linRound x L

lemma quadRound (x : Nat → ℚ) : ∀ C : List (Nat × Nat × ℚ),
    ((C.flatMap (fun c => [(c.1, -2 * c.2.2), (c.2.1, -2 * c.2.2)])).map
        (fun p => p.2 * x p.1)).sum
      + ((C.map (fun c => (c.1, c.2.1, 4 * c.2.2))).map
          (fun c => c.2.2 * x c.1 * x c.2.1)).sum
      + (C.map (fun c => c.2.2)).sum
      = (C.map (fun c => c.2.2 * (2 * x c.1 - 1) * (2 * x c.2.1 - 1))).sum
  | [] => by simp
  | c :: C => by
    simp only [List.flatMap_cons, List.map_cons, List.map_append, List.sum_cons,
      List.sum_append, List.map_nil, List.sum_nil]
    linear_combination quadRound x C

/-- Energy preservation of the spin-to-binary term transform: the binary
view evaluated at a binary configuration equals the spin model evaluated
at the corresponding bipolar configuration. -/
lemma tmEnergy_toBinaryTerms (t : Terms) (x : Nat → ℚ) :
    tmEnergy (toBinaryTerms t) x = tmEnergy t (fun i => 2 * x i - 1) := by
  unfold tmEnergy toBinaryTerms
  simp only [List.map_append, List.sum_append]
  linear_combination linRound x t.lin + quadRound x t.quad

/-- C10: every record of a tabu sample response satisfies energy
consistency: the reported energy is recomputed from the returned
configuration through the binary view of the input problem, so after the
outbound vartype conversion it equals the energy of the configuration
held in the same record under the input problem, for every behaviour of the search
primitive. -/
theorem spec_c10_energy_consistency (b : BQM) (sr : Nat → Nat → ℚ) (R : Nat)
    (rec : (Nat → ℚ) × ℚ) (hrec : rec ∈ tabuSampleResponse b sr R) :
    rec.2 = bqmEnergy b rec.1 := by
  unfold tabuSampleResponse at hrec
  split at hrec
  · exact absurd hrec (List.not_mem_nil rec)
  · unfold tabuRecords at hrec
    simp only [List.mem_map, List.mem_range] at hrec
    obtain ⟨k, -, hk⟩ := hrec
    cases hspin : b.isSpin with
    | false =>
      rw [← hk]
      simp only [hspin, Bool.false_eq_true, if_false]
      unfold bqmEnergy bqmBinaryView
      rw [hspin]
      simp
    | true =>
      rw [← hk]
      simp only [hspin, if_true]
      unfold bqmEnergy bqmBinaryView
      rw [hspin]
      simp only [if_true]
      exact tmEnergy_toBinaryTerms b.terms (sr k)

/-- A concrete search behaviour for the C10 witness. -/
def srZero : Nat → Nat → ℚ := fun _ _ => 0

/-- A concrete one-variable spin model for the C10 witness. -/
def bqmSpinExample : BQM := ⟨1, true, ⟨[(0, 1)], [], 0⟩⟩

/-- The single record of the C10 witness response. -/
def c10ExampleRec : (Nat → ℚ) × ℚ :=
  (fun i => 2 * srZero 0 i - 1, tmEnergy (bqmBinaryView bqmSpinExample) (srZero 0))

/-- Witness for C10 at a concrete spin model and search behaviour. -/
theorem spec_c10_energy_consistency_witness :
    c10ExampleRec.2 = bqmEnergy bqmSpinExample c10ExampleRec.1 := by
  refine spec_c10_energy_consistency bqmSpinExample srZero 1 c10ExampleRec ?_
  rw [show tabuSampleResponse bqmSpinExample srZero 1 = [c10ExampleRec] from rfl]
  exact List.mem_singleton.mpr rfl

end DwaveSamplers
